import Mathlib

/-!
Shallow embedding of the email-security-copilot ingestion pipeline
(src/email_security_copilot): the text normalizer (textPreprocessor.py),
the MIME body selection (data.py and build_spamassassin_dataset.py), the
corpus loader (data.py), the feature engine (features.py) and the dataset
assembler (build_processed.py), together with theorems settling the frozen
claims about them.

Python strings are modelled as lists of characters (`Str`); Python's
stdlib text primitives whose behaviour depends on large Unicode tables
(html.unescape, the punctuation table, the email regex with word
boundaries, spaCy lemmatization) are abstracted as function parameters,
since no claim depends on their internals; every piece of control flow of
the repository's own code is translated directly.
-/

namespace ESC

/-- Python strings, modelled as lists of characters. -/
abbrev Str := List Char

/-- Model of the character class matched by Python's regex whitespace class
on str, and of the default str.strip character set: ASCII whitespace plus
the Unicode whitespace code points. -/
def pyWsChars : List Char :=
  [' ', '\t', '\n', '\r', '\x0b', '\x0c',
   '\x1c', '\x1d', '\x1e', '\x1f', '\x85', '\xa0',
   ' ', ' ', ' ', ' ', ' ', ' ', ' ',
   ' ', ' ', ' ', ' ', ' ',
   ' ', ' ', ' ', ' ', '　']

/-- Whitespace test used throughout the model. -/
def pyIsSpace (c : Char) : Bool := decide (c ∈ pyWsChars)

/-- Python str.lstrip() with the default (whitespace) character set. -/
def stripStart (s : Str) : Str := s.dropWhile pyIsSpace

/-- Python str.rstrip() with the default (whitespace) character set. -/
def stripEnd (s : Str) : Str := (s.reverse.dropWhile pyIsSpace).reverse

/-- Python str.strip() with the default (whitespace) character set. -/
def pyStrip (s : Str) : Str := stripEnd (stripStart s)

/-- Model of Python re.sub of one-or-more whitespace by a single space:
each maximal run of whitespace characters becomes one space character. -/
def reSubWs : Str → Str
  | [] => []
  | [c] => if pyIsSpace c then [' '] else [c]
  | c1 :: c2 :: rest =>
    if pyIsSpace c1 then
      (if pyIsSpace c2 then reSubWs (c2 :: rest) else ' ' :: reSubWs (c2 :: rest))
    else c1 :: reSubWs (c2 :: rest)

/-- Modelled from the spec: the list of maximal runs of non-whitespace
characters of a string, in order; used to state, independently of the
code, what collapsing whitespace is supposed to produce. -/
def specWords : Str → List Str
  | [] => []
  | [c] => if pyIsSpace c then [] else [[c]]
  | c1 :: c2 :: rest =>
    if pyIsSpace c1 then specWords (c2 :: rest)
    else
      match specWords (c2 :: rest) with
      | [] => [[c1]]
      | w :: ws => if pyIsSpace c2 then [c1] :: w :: ws else (c1 :: w) :: ws

/-- Join a list of words with a single space between consecutive words. -/
def joinSp : List Str → Str
  | [] => []
  | [w] => w
  | w :: ws => w ++ ' ' :: joinSp ws

/-- The collapse_whitespace step of TextPreprocessor.__call__:
re.sub of whitespace runs by a single space, followed by str.strip(). -/
def collapseStep (s : Str) : Str := pyStrip (reSubWs s)

/-- Whether the final character of a string is whitespace. -/
def lastWs : Str → Bool
  | [] => false
  | [c] => pyIsSpace c
  | _ :: c2 :: rest => lastWs (c2 :: rest)

/-- The single space that re.sub leaves at the front of its output when
the input starts with whitespace. -/
def leadMark : Str → Str
  | [] => []
  | c :: _ => if pyIsSpace c then [' '] else []

/-- The single space that re.sub leaves at the end of its output when the
input ends with whitespace and holds at least one word. -/
def trailMark (s : Str) : Str :=
  if lastWs s = true ∧ specWords s ≠ [] then [' '] else []

/-- Remove a leading segment: returns the remainder of the second string
after the first, when the first is a leading segment of it. -/
def dropPre : Str → Str → Option Str
  | [], s => some s
  | _ :: _, [] => none
  | c :: cs, d :: ds => if c = d then dropPre cs ds else none

/-- Model of the regex word class on ASCII letters, digits and underscore
(the inputs the pipeline feeds these regexes are decoded email text). -/
def isWordChar (c : Char) : Bool := c.isAlphanum || c = '_'

/-- Length of a match of URL_RE, https or http scheme, or a www. prefix,
followed by one or more non-whitespace characters, at the head of the
string; none when URL_RE does not match there. -/
def urlMatchLen (s : Str) : Option Nat :=
  match dropPre ("https://".toList) s with
  | some r =>
    let k := (r.takeWhile (fun c => ¬ pyIsSpace c)).length
    if k = 0 then none else some (8 + k)
  | none =>
  match dropPre ("http://".toList) s with
  | some r =>
    let k := (r.takeWhile (fun c => ¬ pyIsSpace c)).length
    if k = 0 then none else some (7 + k)
  | none =>
  match dropPre ("www.".toList) s with
  | some r =>
    let k := (r.takeWhile (fun c => ¬ pyIsSpace c)).length
    if k = 0 then none else some (4 + k)
  | none => none

/-- Length of a match of HTML_TAG_RE, an opening angle bracket, one or
more characters other than a closing angle bracket, then the closing
angle bracket, at the head of the string. -/
def tagMatchLen (s : Str) : Option Nat :=
  match s with
  | '<' :: rest =>
    let body := rest.takeWhile (fun c => decide (c ≠ '>'))
    if body.length = 0 then none
    else if body.length < rest.length then some (body.length + 2) else none
  | _ => none

/-- Length of a match of HANDLE_RE, an at sign then one or more word
characters, at the head of the string. -/
def handleMatchLen : Str → Option Nat
  | '@' :: rest =>
    let k := (rest.takeWhile isWordChar).length
    if k = 0 then none else some (1 + k)
  | _ => none

/-- Length of a match of HASHTAG_RE, a hash then one or more word
characters, at the head of the string. -/
def hashtagMatchLen : Str → Option Nat
  | '#' :: rest =>
    let k := (rest.takeWhile isWordChar).length
    if k = 0 then none else some (1 + k)
  | _ => none

/-- Length of a match of DIGIT_RE, one or more digits, at the head of the
string (ASCII model of the regex digit class). -/
def digitMatchLen (s : Str) : Option Nat :=
  let k := (s.takeWhile Char.isDigit).length
  if k = 0 then none else some k

/-- Generic engine for re.sub with a single space as replacement: scans
left to right, replacing each leftmost match (whose length the matcher
reports) by one space; fuel bounds the scan by the input length. -/
def reSubGo (m : Str → Option Nat) : Nat → Str → Str
  | 0, s => s
  | _ + 1, [] => []
  | fuel + 1, c :: cs =>
    match m (c :: cs) with
    | some n => ' ' :: reSubGo m fuel ((c :: cs).drop n)
    | none => c :: reSubGo m fuel cs

/-- Substitution by a single space of every match of a pattern. -/
def reSubBySpace (m : Str → Option Nat) (s : Str) : Str := reSubGo m s.length s

/-- Model of re.sub(URL_RE, a space, text). -/
def subUrlRe (s : Str) : Str := reSubBySpace urlMatchLen s

/-- Model of re.sub(HTML_TAG_RE, a space, text). -/
def subHtmlTags (s : Str) : Str := reSubBySpace tagMatchLen s

/-- Model of re.sub(HANDLE_RE, a space, text). -/
def subHandleRe (s : Str) : Str := reSubBySpace handleMatchLen s

/-- Model of re.sub(HASHTAG_RE, a space, text). -/
def subHashtagRe (s : Str) : Str := reSubBySpace hashtagMatchLen s

/-- Model of re.sub(DIGIT_RE, a space, text). -/
def subDigitRe (s : Str) : Str := reSubBySpace digitMatchLen s

/-- Model of Python str.lower, per-character lowercasing. -/
def lowerStr (s : Str) : Str := s.map Char.toLower

/-- The preprocessing section of the project configuration (config.py,
PreprocessingCfg), with its defaults. -/
structure PreprocessingCfg where
  enable : Bool := true
  language : Str := "en".toList
  remove_html : Bool := true
  remove_urls : Bool := false
  remove_emails : Bool := false
  remove_user_handles : Bool := false
  remove_hashtags : Bool := false
  lowercase : Bool := false
  remove_digits : Bool := false
  remove_punctuation : Bool := false
  collapse_whitespace : Bool := true
  lemmatize : Bool := false
  deriving DecidableEq

/-- Text primitives of TextPreprocessor.__call__ that delegate to Python
stdlib machinery driven by large Unicode or entity tables (html.unescape,
EMAIL_RE with its word boundaries, the Unicode punctuation translation
table) or to the optional spaCy model; abstracted as parameters since no
claim depends on their internals. -/
structure TextPrims where
  htmlUnescape : Str → Str
  subEmailRe : Str → Str
  removePunct : Str → Str
  lemmaApply : Str → Str

/-- Text primitives instantiated with identity functions, used to
instantiate the universally quantified theorems at a concrete input. -/
def idPrims : TextPrims := ⟨id, id, id, id⟩

/-- TextPreprocessor.__call__ (textPreprocessor.py): if enable is false
the input is returned unchanged; otherwise the enabled steps apply in the
source's fixed order. -/
def textPreprocessorCall (prims : TextPrims) (cfg : PreprocessingCfg) (text : Str) : Str :=
  if ¬ cfg.enable then text
  else
    let text := prims.htmlUnescape text
    let text := if cfg.remove_html then subHtmlTags text else text
    let text := if cfg.remove_urls then subUrlRe text else text
    let text := if cfg.remove_emails then prims.subEmailRe text else text
    let text := if cfg.remove_user_handles then subHandleRe text else text
    let text := if cfg.remove_hashtags then subHashtagRe text else text
    let text := if cfg.lowercase then lowerStr text else text
    let text := if cfg.remove_digits then subDigitRe text else text
    let text := if cfg.remove_punctuation then prims.removePunct text else text
    let text := if cfg.collapse_whitespace then collapseStep text else text
    let text := if cfg.lemmatize then prims.lemmaApply text else text
    text

/-- The text/plain content type string. -/
def plainCT : Str := "text/plain".toList

/-- The text/html content type string. -/
def htmlCT : Str := "text/html".toList

/-- The attachment content disposition string. -/
def attachmentDisp : Str := "attachment".toList

/-- One MIME part as the walk traversal of email.message yields it: its
content type, its content disposition when declared, and its decoded text
content (the charset decoding with its permissive fallback is modelled as
already applied, since it never fails). -/
structure MimePart where
  ctype : Str
  disp : Option Str
  text : Str
  deriving DecidableEq

/-- A parsed MIME message body: either multipart, carrying the parts that
msg.walk() yields in traversal order, or a single part. -/
inductive PyMessage
  | multipart (parts : List MimePart)
  | single (part : MimePart)
  deriving DecidableEq

/-- Join a list of strings with a separator (Python str.join). -/
def joinWith (sep : Str) : List Str → Str
  | [] => []
  | [x] => x
  | x :: xs => x ++ sep ++ joinWith sep xs

/-- EmailDataset._get_body (data.py): for a multipart message, the first
text/plain part of the walk wins; otherwise the first text/html part is
decoded and stripped of markup; a single-part message uses its own
content type the same way.  The HTML-to-text stripping helper _html2txt
is a parameter. -/
def getBody (html2txt : Str → Str) : PyMessage → Str
  | PyMessage.multipart parts =>
    match parts.find? (fun p => decide (p.ctype = plainCT)) with
    | some p => p.text
    | none =>
      match parts.find? (fun p => decide (p.ctype = htmlCT)) with
      | some p => html2txt p.text
      | none => []
  | PyMessage.single p =>
    if p.ctype = plainCT then p.text
    else if p.ctype = htmlCT then html2txt p.text
    else []

/-- Whether a content type starts with text/ (ctype.startswith in
extract_text_from_email's fallback loop). -/
def startsWithText (s : Str) : Bool :=
  match dropPre ("text/".toList) s with
  | some _ => true
  | none => false

/-- The part collection of extract_text_from_email
(build_spamassassin_dataset.py): walk the parts, skip any part whose
content disposition is attachment, and keep the content of the
text/plain ones. -/
def extractCollect (parts : List MimePart) : List Str :=
  parts.filterMap (fun p =>
    if p.disp = some attachmentDisp then none
    else if p.ctype = plainCT then some p.text
    else none)

/-- The fallback loop of extract_text_from_email: the first text/* part
whose stripped content is non-empty, or the empty string. -/
def extractFallback : List MimePart → Str
  | [] => []
  | p :: rest =>
    if startsWithText p.ctype then
      (if pyStrip p.text ≠ [] then pyStrip p.text else extractFallback rest)
    else extractFallback rest

/-- The multipart branch of extract_text_from_email: join the collected
non-empty text/plain contents with a newline and strip; when that is
empty, fall back to the first non-empty text/* part. -/
def extractBodyMultipart (parts : List MimePart) : Str :=
  let collected := extractCollect parts
  let body := pyStrip (joinWith ['\n'] (collected.filter (fun t => decide (t ≠ []))))
  if body ≠ [] then body else extractFallback parts

/-- extract_text_from_email's body selection (build_spamassassin_dataset.py). -/
def extractBody : PyMessage → Str
  | PyMessage.multipart parts => extractBodyMultipart parts
  | PyMessage.single p => pyStrip p.text

/-- Modelled from the spec: the body that claim C1 describes for a
multipart message, namely every text/plain part not marked as an
attachment, the non-empty contents joined by a newline separator and
trimmed. -/
def specC1Body (parts : List MimePart) : Str :=
  pyStrip (joinWith ['\n']
    ((((parts.filter (fun p =>
        decide (p.ctype = plainCT) && decide (p.disp ≠ some attachmentDisp))).map
      (fun p => p.text)).filter (fun t => decide (t ≠ [])))))

/-- The separator data.py joins cc addresses with and features.py
re-splits on. -/
def ccSep : Str := [',', ' ']

/-- The count of non-empty cc addresses (num_cc in EmailDataset.load). -/
def numCcOf (addrs : List Str) : Nat :=
  (addrs.filter (fun a => decide (a ≠ []))).length

/-- The assembled cc string (cc_txt in EmailDataset.load): the non-empty
addresses joined with a comma and a space. -/
def ccTxtOf (addrs : List Str) : Str :=
  joinWith ccSep (addrs.filter (fun a => decide (a ≠ [])))

/-- Whether the comma-space separator occurs as a contiguous segment. -/
def containsCc : Str → Bool
  | [] => false
  | [_] => false
  | c1 :: c2 :: rest => (decide (c1 = ',') && decide (c2 = ' ')) || containsCc (c2 :: rest)

/-- Python str.split on the two-character comma-space separator, with an
accumulator for the current field (reversed). -/
def splitCcGo : Str → Str → List Str
  | cur, [] => [cur.reverse]
  | cur, [c] => [(c :: cur).reverse]
  | cur, c1 :: c2 :: rest =>
    if c1 = ',' ∧ c2 = ' ' then cur.reverse :: splitCcGo [] rest
    else splitCcGo (c1 :: cur) (c2 :: rest)

/-- Python x.split of a string on the comma-space separator. -/
def splitCc (s : Str) : List Str := splitCcGo [] s

/-- The Feature Engine's defensive re-derivation of num_cc
(features.py): split the cc string on comma-space and count the entries
that are non-empty after stripping. -/
def rederiveNumCc (s : Str) : Nat :=
  ((splitCc s).filter (fun a => decide (pyStrip a ≠ []))).length

/-- The fields EmailDataset.load reads off a parsed message: the Subject,
From and To headers, the number of Received headers, the address parts
that email.utils.getaddresses returns for the Cc headers (arbitrary
strings, possibly empty), and the message body structure. -/
structure ParsedEmail where
  subject : Str
  sender : Str
  toHdr : Str
  receivedCount : Nat
  ccAddrs : List Str
  body : PyMessage
  deriving DecidableEq

/-- Outcome of reading and parsing one file (the first try block of
EmailDataset.load): either the parse failed or it produced a message. -/
inductive ReadResult
  | failed
  | parsed (msg : ParsedEmail)
  deriving DecidableEq

/-- A directory entry as os.scandir yields it: a regular file with its
read-and-parse outcome, or a subdirectory with its own children. -/
inductive FsNode
  | fileEnt (name : Str) (res : ReadResult)
  | dirEnt (name : Str) (children : List FsNode)

/-- One row of the table EmailDataset.load builds. -/
structure EmailRow where
  file : Str
  sender : Str
  recipient : Str
  cc : Str
  num_cc : Nat
  subject : Str
  content : Str
  num_hops : Nat
  label : Option Str
  deriving DecidableEq

/-- The per-file body of EmailDataset.load's loop after a successful
parse: header extraction, cc assembly, body extraction, and the
all-empty-record check; none models the continue-with-skip paths. -/
def processFile (html2txt : Str → Str) (label : Option Str) (name : Str) :
    ReadResult → Option EmailRow
  | ReadResult.failed => none
  | ReadResult.parsed msg =>
    let subj := msg.subject
    let sender := msg.sender
    let toAddr := msg.toHdr
    let content := getBody html2txt msg.body
    if subj = [] ∧ content = [] ∧ sender = [] then none
    else some
      { file := name, sender := sender, recipient := toAddr,
        cc := ccTxtOf msg.ccAddrs, num_cc := numCcOf msg.ccAddrs,
        subject := subj, content := content,
        num_hops := msg.receivedCount, label := label }

/-- EmailDataset.load (data.py): fold over the scandir entries; entries
that are not regular files are passed over entirely; each regular file
either contributes one row or increments the skip counter. -/
def loadDir (html2txt : Str → Str) (label : Option Str) :
    List FsNode → List EmailRow × Nat
  | [] => ([], 0)
  | FsNode.dirEnt _ _ :: rest => loadDir html2txt label rest
  | FsNode.fileEnt n res :: rest =>
    match processFile html2txt label n res, loadDir html2txt label rest with
    | none, (rows, sk) => (rows, sk + 1)
    | some r, (rows, sk) => (r :: rows, sk)

/-- Whether an entry is a regular file (e.is_file() in data.py). -/
def isFileEnt : FsNode → Bool
  | FsNode.fileEnt _ _ => true
  | FsNode.dirEnt _ _ => false

/-- The number of regular files directly in the scanned directory. -/
def countTopFiles (es : List FsNode) : Nat := (es.filter isFileEnt).length

/-- iter_email_files (build_spamassassin_dataset.py): rglob over the
tree, yielding every regular file at any depth. -/
def rglobFiles : List FsNode → List FsNode
  | [] => []
  | FsNode.fileEnt n res :: rest => FsNode.fileEnt n res :: rglobFiles rest
  | FsNode.dirEnt _ ch :: rest => rglobFiles ch ++ rglobFiles rest

/-- Modelled from the spec: the number of regular files anywhere in the
tree, counted structurally. -/
def specCountList : List FsNode → Nat
  | [] => 0
  | FsNode.fileEnt _ _ :: rest => 1 + specCountList rest
  | FsNode.dirEnt _ ch :: rest => specCountList ch + specCountList rest

/-- One pandas cell: a string, a number, or a missing value (NaN). -/
inductive Cell
  | str (s : Str)
  | num (n : Nat)
  | null
  deriving DecidableEq

/-- One pandas column, as its list of cells in row order. -/
abbrev Col := List Cell

/-- A pandas DataFrame, as its columns in order, each with its name. -/
abbrev Table := List (String × Col)

/-- Column lookup (df of a column name; none models the KeyError). -/
def getCol : Table → String → Option Col
  | [], _ => none
  | (k, v) :: rest, n => if k = n then some v else getCol rest n

/-- Column membership (name in df.columns). -/
def hasCol (t : Table) (n : String) : Bool := (getCol t n).isSome

/-- Column lookup with an empty default, used only under a membership
guard. -/
def getColD (t : Table) (n : String) : Col := (getCol t n).getD []

/-- Column assignment (df of a name set to a column): replaces the
existing column of that name, or appends a new one. -/
def setCol : Table → String → Col → Table
  | [], n, c => [(n, c)]
  | (k, v) :: rest, n, c =>
    if k = n then (k, c) :: rest else (k, v) :: setCol rest n c

/-- Cell-level fillna with the empty string. -/
def fillCell : Cell → Cell
  | Cell.null => Cell.str []
  | c => c

/-- Cell-level .str.len(): length for a string cell, missing otherwise. -/
def cellStrLen : Cell → Cell
  | Cell.str s => Cell.num s.length
  | _ => Cell.null

/-- Cell-level astype(str); applied only after fillna, so the null case
is unreachable in the modelled pipeline. -/
def astypeStr : Cell → Str
  | Cell.str s => s
  | Cell.num n => (toString n).toList
  | Cell.null => "nan".toList

/-- re.search of URL_RE anywhere in the string (.str.contains). -/
def urlSearch : Str → Bool
  | [] => false
  | c :: cs => (urlMatchLen (c :: cs)).isSome || urlSearch cs

/-- The has_link row computation of features.py: the subject and content
joined by a space, matched against URL_RE, as an integer cell. -/
def hasLinkCell (a b : Str) : Cell :=
  Cell.num (if urlSearch (a ++ ' ' :: b) then 1 else 0)

/-- The num_cc row re-derivation of features.py applied to one cell; a
non-string cell is modelled as missing (the source would raise there,
unreachable after fillna on a string column). -/
def ccDeriveCell : Cell → Cell
  | Cell.str s => Cell.num (rederiveNumCc s)
  | _ => Cell.null

/-- The EmailFeatureClass dataclass of features.py with its defaults. -/
structure EmailFeatureClass where
  subject_col : String := "subject"
  content_col : String := "content"
  cols : List String := ["num_cc", "num_hops", "subject_len", "content_len", "has_link"]

/-- The failure modes of EmailFeatureClass.__call__: a pandas column
lookup KeyError, or the ValueError listing missing expected columns that
the spec calls SchemaError. -/
inductive FErr
  | keyErr (c : String)
  | missingExpected (cs : List String)
  deriving DecidableEq

instance instDecEqExcept {ε α : Type} [DecidableEq ε] [DecidableEq α] :
    DecidableEq (Except ε α)
  | Except.error e, Except.error f =>
    match decEq e f with
    | isTrue h => isTrue (h ▸ rfl)
    | isFalse h => isFalse fun hh => h (by injection hh)
  | Except.ok x, Except.ok y =>
    match decEq x y with
    | isTrue h => isTrue (h ▸ rfl)
    | isFalse h => isFalse fun hh => h (by injection hh)
  | Except.error _, Except.ok _ => isFalse fun hh => Except.noConfusion hh
  | Except.ok _, Except.error _ => isFalse fun hh => Except.noConfusion hh

/-- The subject_len branch of EmailFeatureClass.__call__. -/
def featStep1 (cls : EmailFeatureClass) (df : Table) : Table :=
  if ¬ hasCol df "subject_len" ∧ hasCol df cls.subject_col then
    setCol df "subject_len"
      ((getColD df cls.subject_col).map (fun c => cellStrLen (fillCell c)))
  else df

/-- The content_len branch of EmailFeatureClass.__call__. -/
def featStep2 (cls : EmailFeatureClass) (df : Table) : Table :=
  if ¬ hasCol df "content_len" ∧ hasCol df cls.content_col then
    setCol df "content_len"
      ((getColD df cls.content_col).map (fun c => cellStrLen (fillCell c)))
  else df

/-- The has_link branch of EmailFeatureClass.__call__: when has_link is
absent, the subject and content columns are looked up unguarded, so a
missing one raises a KeyError there. -/
def featHasLink (cls : EmailFeatureClass) (df : Table) : Except FErr Table :=
  if hasCol df "has_link" then Except.ok df
  else
    match getCol df cls.subject_col with
    | none => Except.error (FErr.keyErr cls.subject_col)
    | some sc =>
      match getCol df cls.content_col with
      | none => Except.error (FErr.keyErr cls.content_col)
      | some cc =>
        Except.ok (setCol df "has_link"
          (List.zipWith (fun a b =>
            hasLinkCell (astypeStr (fillCell a)) (astypeStr (fillCell b))) sc cc))

/-- The num_cc branch of EmailFeatureClass.__call__. -/
def featStep4 (cls : EmailFeatureClass) (df : Table) : Table :=
  if ¬ hasCol df "num_cc" ∧ hasCol df "cc" then
    setCol df "num_cc" ((getColD df "cc").map (fun c => ccDeriveCell (fillCell c)))
  else df

/-- The final validation of EmailFeatureClass.__call__: the expected
columns still absent after computation, raised as the enumerating error. -/
def featFinish (cls : EmailFeatureClass) (df : Table) : Except FErr Table :=
  let missing := cls.cols.filter (fun c => ¬ hasCol df c)
  if missing = [] then Except.ok df
  else Except.error (FErr.missingExpected missing)

/-- EmailFeatureClass.__call__ (features.py) on a table value: the four
derivation branches in source order, then the validation. -/
def EmailFeatureClass.callTable (cls : EmailFeatureClass) (df0 : Table) :
    Except FErr Table :=
  match featHasLink cls (featStep2 cls (featStep1 cls df0)) with
  | Except.error e => Except.error e
  | Except.ok df3 => featFinish cls (featStep4 cls df3)

/-- The feature class instantiated with its defaults, as
build_processed.py constructs it. -/
def defaultFeatureCls : EmailFeatureClass := {}

/-- Whether a feature call outcome is the enumerating missing-columns
error (the error the spec calls SchemaError). -/
def isMissingExpectedErr : Except FErr Table → Bool
  | Except.error (FErr.missingExpected _) => true
  | _ => false

/-- The filesystem effects of build_processed.main: how many mkdir calls
ran and what table, if any, was written to the output path. -/
structure FsState where
  mkdirCount : Nat
  written : Option Table
  deriving DecidableEq

/-- The failure modes of build_processed.main after loading: an error
from the feature engine, or main's own check of the keep list. -/
inductive MainErr
  | featureErr (e : FErr)
  | loadDataMissing (cs : List String)
  deriving DecidableEq

/-- The keep list of build_processed.main. -/
def keepCols : List String :=
  ["sender", "recipient", "num_cc", "subject", "content",
   "subject_len", "content_len", "has_link", "num_hops", "label"]

/-- Column projection (features_df of the keep list). -/
def projectCols (t : Table) (ks : List String) : Table :=
  ks.filterMap (fun k => (getCol t k).map (fun c => (k, c)))

/-- The final null-safe string coercion of build_processed.main. -/
def coerceStrCol (c : Col) : Col :=
  c.map (fun x => Cell.str (astypeStr (fillCell x)))

/-- The Dataset Assembler (build_processed.main after load_data): run the
feature engine, check the keep list, and only then create the output
directory and write the projected, coerced table; on any error the
filesystem state is returned untouched. -/
def mainAssemble (df : Table) (fs : FsState) : Option MainErr × FsState :=
  match defaultFeatureCls.callTable df with
  | Except.error e => (some (MainErr.featureErr e), fs)
  | Except.ok features_df =>
    let missing := keepCols.filter (fun c => ¬ hasCol features_df c)
    if missing = [] then
      let fs1 : FsState := { fs with mkdirCount := fs.mkdirCount + 1 }
      let raw0 := projectCols features_df keepCols
      let raw1 := setCol raw0 "subject" (coerceStrCol (getColD raw0 "subject"))
      let raw2 := setCol raw1 "content" (coerceStrCol (getColD raw1 "content"))
      (none, { fs1 with written := some raw2 })
    else (some (MainErr.loadDataMissing missing), fs)

/-- A heap of live DataFrame objects, making pandas aliasing explicit: a
reference is an index, df.copy() allocates, and column assignment
mutates in place. -/
abbrev Heap := List Table

/-- Dereference a heap index. -/
def hGet (h : Heap) (r : Nat) : Table := h.getD r []

/-- In-place mutation of the table at a heap index. -/
def hSet (h : Heap) (r : Nat) (t : Table) : Heap := h.set r t

/-- The subject_len branch of __call__ as an in-place mutation of the
working copy at index w. -/
def featHeapStep1 (cls : EmailFeatureClass) (h1 : Heap) (w : Nat) : Heap :=
  if ¬ hasCol (hGet h1 w) "subject_len" ∧ hasCol (hGet h1 w) cls.subject_col then
    hSet h1 w (setCol (hGet h1 w) "subject_len"
      ((getColD (hGet h1 w) cls.subject_col).map (fun c => cellStrLen (fillCell c))))
  else h1

/-- The content_len branch of __call__ as an in-place mutation of the
working copy at index w. -/
def featHeapStep2 (cls : EmailFeatureClass) (h2 : Heap) (w : Nat) : Heap :=
  if ¬ hasCol (hGet h2 w) "content_len" ∧ hasCol (hGet h2 w) cls.content_col then
    hSet h2 w (setCol (hGet h2 w) "content_len"
      ((getColD (hGet h2 w) cls.content_col).map (fun c => cellStrLen (fillCell c))))
  else h2

/-- The final validation of __call__ on the heap: on success the return
value is a fresh copy of the working table, appended to the heap. -/
def featHeapFinish (cls : EmailFeatureClass) (h4 : Heap) (w : Nat) :
    Heap × Except FErr Nat :=
  if cls.cols.filter (fun c => ¬ hasCol (hGet h4 w) c) = [] then
    (h4 ++ [hGet h4 w], Except.ok h4.length)
  else
    (h4, Except.error (FErr.missingExpected
      (cls.cols.filter (fun c => ¬ hasCol (hGet h4 w) c))))

/-- The num_cc branch of __call__ on the heap followed by the final
validation. -/
def featHeapTail (cls : EmailFeatureClass) (h : Heap) (w : Nat) :
    Heap × Except FErr Nat :=
  featHeapFinish cls
    (if ¬ hasCol (hGet h w) "num_cc" ∧ hasCol (hGet h w) "cc" then
      hSet h w (setCol (hGet h w) "num_cc"
        ((getColD (hGet h w) "cc").map (fun c => ccDeriveCell (fillCell c))))
    else h) w

/-- The has_link branch of __call__ on the heap (with its possible
KeyError), followed by the remaining steps. -/
def featHeapLink (cls : EmailFeatureClass) (h3 : Heap) (w : Nat) :
    Heap × Except FErr Nat :=
  if hasCol (hGet h3 w) "has_link" then featHeapTail cls h3 w
  else
    match getCol (hGet h3 w) cls.subject_col with
    | none => (h3, Except.error (FErr.keyErr cls.subject_col))
    | some sc =>
      match getCol (hGet h3 w) cls.content_col with
      | none => (h3, Except.error (FErr.keyErr cls.content_col))
      | some cc =>
        featHeapTail cls
          (hSet h3 w (setCol (hGet h3 w) "has_link"
            (List.zipWith (fun a b =>
              hasLinkCell (astypeStr (fillCell a)) (astypeStr (fillCell b))) sc cc))) w

/-- EmailFeatureClass.__call__ (features.py) on the heap: df.copy()
allocates the working copy at index h0.length, the derivation branches
mutate only it, and the successful return value is a further fresh copy;
the caller's table is never written to. -/
def EmailFeatureClass.callHeap (cls : EmailFeatureClass) (h0 : Heap) (r : Nat) :
    Heap × Except FErr Nat :=
  featHeapLink cls
    (featHeapStep2 cls
      (featHeapStep1 cls (h0 ++ [hGet h0 r]) h0.length) h0.length) h0.length

/-! Theorems and supporting lemmas. -/

theorem pyIsSpace_space : pyIsSpace ' ' = true := by decide

theorem specWords_singleton_ws {c : Char} (h : pyIsSpace c = true) :
    specWords [c] = [] := by
  simp [specWords, h]

theorem specWords_cons_cons_ws {c1 c2 : Char} {rest : Str} (h : pyIsSpace c1 = true) :
    specWords (c1 :: c2 :: rest) = specWords (c2 :: rest) := by
  simp [specWords, h]

theorem specWords_ws_cons {c : Char} {cs : Str} (h : pyIsSpace c = true) :
    specWords (c :: cs) = specWords cs := by
  cases cs with
  | nil => simp [specWords, h]
  | cons c2 rest => simp [specWords, h]

theorem specWords_cons_cons_nonws_nil {c1 c2 : Char} {rest : Str}
    (h1 : pyIsSpace c1 = false) (h2 : specWords (c2 :: rest) = []) :
    specWords (c1 :: c2 :: rest) = [[c1]] := by
  simp [specWords, h1, h2]

theorem specWords_cons_cons_nonws_ws {c1 c2 : Char} {rest : Str} {w : Str} {ws : List Str}
    (h1 : pyIsSpace c1 = false) (h2 : pyIsSpace c2 = true)
    (h3 : specWords (c2 :: rest) = w :: ws) :
    specWords (c1 :: c2 :: rest) = [c1] :: w :: ws := by
  simp [specWords, h1, h2, h3]

theorem specWords_cons_cons_nonws_nonws {c1 c2 : Char} {rest : Str} {w : Str} {ws : List Str}
    (h1 : pyIsSpace c1 = false) (h2 : pyIsSpace c2 = false)
    (h3 : specWords (c2 :: rest) = w :: ws) :
    specWords (c1 :: c2 :: rest) = (c1 :: w) :: ws := by
  simp [specWords, h1, h2, h3]

theorem reSubWs_cc_ws_ws {c1 c2 : Char} {rest : Str}
    (h1 : pyIsSpace c1 = true) (h2 : pyIsSpace c2 = true) :
    reSubWs (c1 :: c2 :: rest) = reSubWs (c2 :: rest) := by
  simp [reSubWs, h1, h2]

theorem reSubWs_cc_ws_nonws {c1 c2 : Char} {rest : Str}
    (h1 : pyIsSpace c1 = true) (h2 : pyIsSpace c2 = false) :
    reSubWs (c1 :: c2 :: rest) = ' ' :: reSubWs (c2 :: rest) := by
  simp [reSubWs, h1, h2]

theorem reSubWs_cc_nonws {c1 c2 : Char} {rest : Str} (h1 : pyIsSpace c1 = false) :
    reSubWs (c1 :: c2 :: rest) = c1 :: reSubWs (c2 :: rest) := by
  simp [reSubWs, h1]

theorem specWords_ne_nil_of_nonws {c1 c2 : Char} {rest : Str}
    (h1 : pyIsSpace c1 = false) : specWords (c1 :: c2 :: rest) ≠ [] := by
  rcases hsw : specWords (c2 :: rest) with _ | ⟨w, ws⟩
  · rw [specWords_cons_cons_nonws_nil h1 hsw]
    exact List.cons_ne_nil _ _
  · by_cases h2 : pyIsSpace c2 = true
    · rw [specWords_cons_cons_nonws_ws h1 h2 hsw]
      exact List.cons_ne_nil _ _
    · rw [Bool.not_eq_true] at h2
      rw [specWords_cons_cons_nonws_nonws h1 h2 hsw]
      exact List.cons_ne_nil _ _

theorem specWords_eq_nil_all_ws :
    ∀ s : Str, specWords s = [] → ∀ c ∈ s, pyIsSpace c = true := by
  intro s
  induction s with
  | nil => intro _ c hc; cases hc
  | cons c1 tail ih =>
    intro h c hc
    have h1 : pyIsSpace c1 = true := by
      by_contra hne
      rw [Bool.not_eq_true] at hne
      cases tail with
      | nil => simp [specWords, hne] at h
      | cons c2 rest => exact specWords_ne_nil_of_nonws hne h
    rcases List.mem_cons.mp hc with hceq | hctail
    · exact hceq ▸ h1
    · exact ih (by rwa [specWords_ws_cons h1] at h) c hctail

theorem lastWs_of_all_ws :
    ∀ s : Str, s ≠ [] → (∀ c ∈ s, pyIsSpace c = true) → lastWs s = true := by
  intro s
  induction s with
  | nil => intro h; cases h rfl
  | cons c1 tail ih =>
    intro _ hall
    cases tail with
    | nil => simpa [lastWs] using hall c1 (by simp)
    | cons c2 rest =>
      show lastWs (c2 :: rest) = true
      exact ih (by simp) (fun c hc => hall c (List.mem_cons_of_mem _ hc))

theorem specWords_ok :
    ∀ s : Str, ∀ w ∈ specWords s, w ≠ [] ∧ ∀ c ∈ w, pyIsSpace c = false := by
  intro s
  induction s with
  | nil => intro w hw; cases hw
  | cons c1 tail ih =>
    intro w hw
    cases tail with
    | nil =>
      by_cases h1 : pyIsSpace c1 = true
      · rw [specWords_singleton_ws h1] at hw; cases hw
      · rw [Bool.not_eq_true] at h1
        simp only [specWords, h1, Bool.false_eq_true, if_false, List.mem_singleton] at hw
        subst hw
        refine ⟨by simp, ?_⟩
        intro c hc
        rw [List.mem_singleton.mp hc]
        exact h1
    | cons c2 rest =>
      by_cases h1 : pyIsSpace c1 = true
      · rw [specWords_cons_cons_ws h1] at hw
        exact ih w hw
      · rw [Bool.not_eq_true] at h1
        rcases hsw : specWords (c2 :: rest) with _ | ⟨w0, ws0⟩
        · rw [specWords_cons_cons_nonws_nil h1 hsw] at hw
          rw [List.mem_singleton.mp hw]
          refine ⟨by simp, ?_⟩
          intro c hc
          rw [List.mem_singleton.mp hc]
          exact h1
        · by_cases h2 : pyIsSpace c2 = true
          · rw [specWords_cons_cons_nonws_ws h1 h2 hsw] at hw
            rcases List.mem_cons.mp hw with hw | hw
            · subst hw
              refine ⟨by simp, ?_⟩
              intro c hc
              rw [List.mem_singleton.mp hc]
              exact h1
            · exact ih w (hsw ▸ hw)
          · rw [Bool.not_eq_true] at h2
            rw [specWords_cons_cons_nonws_nonws h1 h2 hsw] at hw
            rcases List.mem_cons.mp hw with hw | hw
            · subst hw
              have hw0 := ih w0 (by rw [hsw]; exact List.mem_cons_self _ _)
              refine ⟨by simp, ?_⟩
              intro c hc
              rcases List.mem_cons.mp hc with hc | hc
              · exact hc ▸ h1
              · exact hw0.2 c hc
            · exact ih w (by rw [hsw]; exact List.mem_cons_of_mem _ hw)

theorem joinSp_cons_head (c : Char) (w : Str) (ws : List Str) :
    joinSp ((c :: w) :: ws) = c :: joinSp (w :: ws) := by
  cases ws with
  | nil => rfl
  | cons v vs => simp [joinSp]

theorem reSubWs_decomp :
    ∀ s : Str, reSubWs s = leadMark s ++ joinSp (specWords s) ++ trailMark s := by
  intro s
  induction s with
  | nil => rfl
  | cons c1 tail ih =>
    cases tail with
    | nil =>
      by_cases h1 : pyIsSpace c1 = true
      · simp [reSubWs, leadMark, trailMark, specWords, joinSp, h1, lastWs]
      · rw [Bool.not_eq_true] at h1
        simp [reSubWs, leadMark, trailMark, specWords, joinSp, h1, lastWs]
    | cons c2 rest =>
      have hlast : lastWs (c1 :: c2 :: rest) = lastWs (c2 :: rest) := rfl
      by_cases h1 : pyIsSpace c1 = true
      · have hsw := @specWords_cons_cons_ws c1 c2 rest h1
        by_cases h2 : pyIsSpace c2 = true
        · rw [reSubWs_cc_ws_ws h1 h2, ih]
          have h2l : leadMark (c2 :: rest) = [' '] := by simp [leadMark, h2]
          have h1l : leadMark (c1 :: c2 :: rest) = [' '] := by simp [leadMark, h1]
          rw [h2l, h1l, hsw]
          simp [trailMark, hlast, hsw]
        · rw [Bool.not_eq_true] at h2
          rw [reSubWs_cc_ws_nonws h1 h2, ih]
          have hl2 : leadMark (c2 :: rest) = [] := by simp [leadMark, h2]
          have hl1 : leadMark (c1 :: c2 :: rest) = [' '] := by simp [leadMark, h1]
          rw [hl2, hl1, hsw]
          simp [trailMark, hlast, hsw]
      · rw [Bool.not_eq_true] at h1
        rw [reSubWs_cc_nonws h1, ih]
        have hl1 : leadMark (c1 :: c2 :: rest) = [] := by simp [leadMark, h1]
        rw [hl1]
        rcases hsw : specWords (c2 :: rest) with _ | ⟨w0, ws0⟩
        · have hall := specWords_eq_nil_all_ws (c2 :: rest) hsw
          have hl2 : leadMark (c2 :: rest) = [' '] := by
            simp [leadMark, hall c2 (by simp)]
          have hlw : lastWs (c2 :: rest) = true :=
            lastWs_of_all_ws (c2 :: rest) (by simp) hall
          rw [specWords_cons_cons_nonws_nil h1 hsw, hl2]
          simp [trailMark, joinSp, hlast, hlw, hsw, specWords_cons_cons_nonws_nil h1 hsw]
        · by_cases h2 : pyIsSpace c2 = true
          · have hl2 : leadMark (c2 :: rest) = [' '] := by simp [leadMark, h2]
            rw [specWords_cons_cons_nonws_ws h1 h2 hsw, hl2]
            have hj : joinSp ([c1] :: w0 :: ws0) = c1 :: ' ' :: joinSp (w0 :: ws0) := by
              simp [joinSp]
            rw [hj]
            have ht : trailMark (c1 :: c2 :: rest) = trailMark (c2 :: rest) := by
              simp [trailMark, hlast, hsw, specWords_cons_cons_nonws_ws h1 h2 hsw]
            rw [ht]
            simp
          · rw [Bool.not_eq_true] at h2
            have hl2 : leadMark (c2 :: rest) = [] := by simp [leadMark, h2]
            rw [specWords_cons_cons_nonws_nonws h1 h2 hsw, hl2,
              joinSp_cons_head]
            have ht : trailMark (c1 :: c2 :: rest) = trailMark (c2 :: rest) := by
              simp [trailMark, hlast, hsw, specWords_cons_cons_nonws_nonws h1 h2 hsw]
            rw [ht]
            simp

theorem leadMark_cases (s : Str) : leadMark s = [] ∨ leadMark s = [' '] := by
  cases s with
  | nil => exact Or.inl rfl
  | cons c t =>
    by_cases h : pyIsSpace c = true
    · exact Or.inr (by simp [leadMark, h])
    · rw [Bool.not_eq_true] at h
      exact Or.inl (by simp [leadMark, h])

theorem trailMark_cases (s : Str) : trailMark s = [] ∨ trailMark s = [' '] := by
  unfold trailMark
  split
  · exact Or.inr rfl
  · exact Or.inl rfl

theorem stripEnd_append_space (s : Str) : stripEnd (s ++ [' ']) = stripEnd s := by
  simp [stripEnd, List.dropWhile, pyIsSpace_space]

theorem stripEnd_of_rev_head_nonws {s : Str} {c : Char} {t : Str}
    (h : s.reverse = c :: t) (hc : pyIsSpace c = false) : stripEnd s = s := by
  unfold stripEnd
  rw [h, List.dropWhile_cons_of_neg (by simp [hc]), ← h, List.reverse_reverse]

theorem joinSp_rev_head :
    ∀ ws : List Str, (∀ w ∈ ws, w ≠ [] ∧ ∀ c ∈ w, pyIsSpace c = false) → ws ≠ [] →
      ∃ c t, (joinSp ws).reverse = c :: t ∧ pyIsSpace c = false := by
  intro ws
  induction ws with
  | nil => intro _ h; cases h rfl
  | cons w vs ih =>
    intro hok _
    cases vs with
    | nil =>
      have hw := hok w (by simp)
      rcases hr : w.reverse with _ | ⟨c, t⟩
      · exact absurd (by simpa using hr) hw.1
      · refine ⟨c, t, by simpa [joinSp] using hr, ?_⟩
        exact hw.2 c (by rw [← List.mem_reverse, hr]; simp)
    | cons v vs' =>
      have hok' : ∀ u ∈ v :: vs', u ≠ [] ∧ ∀ c ∈ u, pyIsSpace c = false :=
        fun u hu => hok u (List.mem_cons_of_mem _ hu)
      rcases ih hok' (by simp) with ⟨c, t, hr, hc⟩
      refine ⟨c, t ++ [' '] ++ w.reverse, ?_, hc⟩
      show (joinSp (w :: v :: vs')).reverse = _
      have : joinSp (w :: v :: vs') = w ++ ' ' :: joinSp (v :: vs') := by
        simp [joinSp]
      rw [this]
      simp [hr]

theorem pyStrip_frame {J lead trail : Str}
    (hlead : lead = [] ∨ lead = [' ']) (htrail : trail = [] ∨ trail = [' '])
    (hhead : ∃ c t, J = c :: t ∧ pyIsSpace c = false)
    (hlast : ∃ c t, J.reverse = c :: t ∧ pyIsSpace c = false) :
    pyStrip (lead ++ J ++ trail) = J := by
  rcases hhead with ⟨c, t, hJ, hc⟩
  rcases hlast with ⟨c', t', hre, hc'⟩
  have hstart : stripStart (lead ++ J ++ trail) = J ++ trail := by
    rcases hlead with hl | hl <;> subst hl
    · rw [List.nil_append, hJ]
      exact List.dropWhile_cons_of_neg (by simp [hc])
    · show stripStart (' ' :: (J ++ trail)) = J ++ trail
      unfold stripStart
      rw [List.dropWhile_cons_of_pos (by simp [pyIsSpace_space]), hJ]
      exact List.dropWhile_cons_of_neg (by simp [hc])
  have hend : stripEnd (J ++ trail) = J := by
    rcases htrail with ht | ht <;> subst ht
    · rw [List.append_nil]
      exact stripEnd_of_rev_head_nonws hre hc'
    · rw [stripEnd_append_space]
      exact stripEnd_of_rev_head_nonws hre hc'
  unfold pyStrip
  rw [hstart, hend]

theorem collapse_eq_joinSp (s : Str) : collapseStep s = joinSp (specWords s) := by
  unfold collapseStep
  rw [reSubWs_decomp]
  rcases h : specWords s with _ | ⟨w, ws⟩
  · have ht : trailMark s = [] := by simp [trailMark, h]
    rw [ht]
    rcases leadMark_cases s with hl | hl <;> rw [hl] <;> decide
  · have hok := specWords_ok s
    rw [h] at hok
    have hw := hok w (by simp)
    rcases w with _ | ⟨c, w'⟩
    · exact absurd rfl hw.1
    · apply pyStrip_frame (leadMark_cases s) (trailMark_cases s)
      · exact ⟨c, joinSp (w' :: ws), joinSp_cons_head c w' ws, hw.2 c (by simp)⟩
      · exact joinSp_rev_head ((c :: w') :: ws) hok (by simp)

theorem reSubWs_append_of_nonws :
    ∀ w rest : Str, (∀ c ∈ w, pyIsSpace c = false) →
      reSubWs (w ++ rest) = w ++ reSubWs rest := by
  intro w
  induction w with
  | nil => intro rest _; rfl
  | cons c w' ih =>
    intro rest hall
    have hc : pyIsSpace c = false := hall c (by simp)
    have hall' : ∀ d ∈ w', pyIsSpace d = false :=
      fun d hd => hall d (List.mem_cons_of_mem _ hd)
    cases w' with
    | nil =>
      cases rest with
      | nil => simp [reSubWs, hc]
      | cons r1 r' => exact reSubWs_cc_nonws hc
    | cons c2 w'' =>
      calc reSubWs ((c :: c2 :: w'') ++ rest)
          = c :: reSubWs (c2 :: (w'' ++ rest)) := reSubWs_cc_nonws hc
        _ = c :: ((c2 :: w'') ++ reSubWs rest) := by
            rw [show (c2 :: (w'' ++ rest) : Str) = (c2 :: w'') ++ rest from rfl,
              ih rest hall']
        _ = (c :: c2 :: w'') ++ reSubWs rest := rfl

theorem reSubWs_joinSp :
    ∀ ws : List Str, (∀ w ∈ ws, w ≠ [] ∧ ∀ c ∈ w, pyIsSpace c = false) →
      reSubWs (joinSp ws) = joinSp ws := by
  intro ws
  induction ws with
  | nil => intro _; rfl
  | cons w vs ih =>
    intro hok
    have hw := hok w (by simp)
    cases vs with
    | nil =>
      show reSubWs (joinSp [w]) = joinSp [w]
      have := reSubWs_append_of_nonws w [] hw.2
      simpa [joinSp, reSubWs] using this
    | cons v vs' =>
      have hok' : ∀ u ∈ v :: vs', u ≠ [] ∧ ∀ c ∈ u, pyIsSpace c = false :=
        fun u hu => hok u (List.mem_cons_of_mem _ hu)
      have hv := hok' v (by simp)
      have hj : joinSp (w :: v :: vs') = w ++ ' ' :: joinSp (v :: vs') := by
        simp [joinSp]
      rw [hj, reSubWs_append_of_nonws w _ hw.2]
      congr 1
      rcases v with _ | ⟨c, v'⟩
      · exact absurd rfl hv.1
      · rw [joinSp_cons_head c v' vs']
        rw [reSubWs_cc_ws_nonws pyIsSpace_space (hv.2 c (by simp))]
        rw [← joinSp_cons_head c v' vs', ih hok']

theorem collapseStep_joinSp (ws : List Str)
    (hok : ∀ w ∈ ws, w ≠ [] ∧ ∀ c ∈ w, pyIsSpace c = false) :
    collapseStep (joinSp ws) = joinSp ws := by
  cases ws with
  | nil => decide
  | cons w vs =>
    unfold collapseStep
    rw [reSubWs_joinSp _ hok]
    have hw := hok w (by simp)
    rcases hw1 : w with _ | ⟨c, w'⟩
    · exact absurd hw1 hw.1
    · subst hw1
      have := @pyStrip_frame (joinSp ((c :: w') :: vs)) [] []
        (Or.inl rfl) (Or.inl rfl)
        ⟨c, joinSp (w' :: vs), joinSp_cons_head c w' vs, hw.2 c (by simp)⟩
        (joinSp_rev_head ((c :: w') :: vs) hok (by simp))
      simpa using this

/-- C9: the collapse_whitespace step replaces every maximal run of
whitespace characters by a single space and removes leading and trailing
whitespace (its output is exactly the maximal non-whitespace runs of the
input joined by single spaces), and the step is idempotent. -/
theorem c9_collapse_whitespace_joins_words_and_idempotent (s : Str) :
    collapseStep s = joinSp (specWords s) ∧
      collapseStep (collapseStep s) = collapseStep s := by
  refine ⟨collapse_eq_joinSp s, ?_⟩
  rw [collapse_eq_joinSp s]
  exact collapseStep_joinSp (specWords s) (specWords_ok s)

/-- C8: with enable set to false, the Text Normalizer returns its input
unchanged, for every choice of the abstracted stdlib text primitives. -/
theorem c8_disabled_normalizer_is_identity (prims : TextPrims)
    (cfg : PreprocessingCfg) (s : Str) (h : cfg.enable = false) :
    textPreprocessorCall prims cfg s = s := by
  simp [textPreprocessorCall, h]

theorem extractCollect_eq (parts : List MimePart) :
    extractCollect parts = (parts.filter (fun p =>
        decide (p.ctype = plainCT) && decide (p.disp ≠ some attachmentDisp))).map
        (fun p => p.text) := by
  induction parts with
  | nil => rfl
  | cons p rest ih =>
    simp only [extractCollect, List.filterMap_cons] at ih ⊢
    by_cases ha : p.disp = some attachmentDisp <;> by_cases hp : p.ctype = plainCT <;>
      simp [List.filter_cons, ha, hp, ih]

/-- C1 (amended): the multipart body selection of extract_text_from_email
collects every text/plain part not marked as an attachment, joins the
non-empty contents with a newline separator, and returns the trimmed
joined text whenever it is non-empty; EmailDataset._get_body does not
follow this contract (see its counterexample), returning instead the
first text/plain part of the walk, attachments included. -/
theorem c1_extract_text_joins_nonattachment_plain
    (parts : List MimePart) (h : specC1Body parts ≠ []) :
    extractBody (PyMessage.multipart parts) = specC1Body parts := by
  show extractBodyMultipart parts = specC1Body parts
  have hb : extractBodyMultipart parts =
      if specC1Body parts ≠ [] then specC1Body parts else extractFallback parts := by
    simp only [extractBodyMultipart, specC1Body, extractCollect_eq]
  rw [hb, if_pos h]

/-- Witness for C1 at a concrete multipart message. -/
theorem c1_extract_text_joins_nonattachment_plain_witness :
    specC1Body [⟨plainCT, none, "Hello".toList⟩] ≠ [] ∧
      extractBody (PyMessage.multipart [⟨plainCT, none, "Hello".toList⟩]) =
        specC1Body [⟨plainCT, none, "Hello".toList⟩] :=
  ⟨by decide, c1_extract_text_joins_nonattachment_plain _ (by decide)⟩

/-- Counterexample to C1 as stated: on a multipart message whose first
text/plain part is an attachment, EmailDataset._get_body returns that
attachment's content, not the newline join of the non-attachment
text/plain parts. -/
theorem c1_counterexample_get_body_first_plain_wins :
    getBody id (PyMessage.multipart
      [⟨"multipart/mixed".toList, none, []⟩,
       ⟨plainCT, some attachmentDisp, "A".toList⟩,
       ⟨plainCT, none, "B".toList⟩]) = "A".toList ∧
    specC1Body
      [⟨"multipart/mixed".toList, none, []⟩,
       ⟨plainCT, some attachmentDisp, "A".toList⟩,
       ⟨plainCT, none, "B".toList⟩] = "B".toList ∧
    ("A".toList : Str) ≠ "B".toList := by decide

theorem find?_plain_of_exists {parts : List MimePart}
    (hex : ∃ q ∈ parts, q.ctype = plainCT) :
    ∃ p, parts.find? (fun q => decide (q.ctype = plainCT)) = some p ∧
      p ∈ parts ∧ p.ctype = plainCT := by
  induction parts with
  | nil => rcases hex with ⟨q, hq, _⟩; cases hq
  | cons r rest ih =>
    by_cases hr : r.ctype = plainCT
    · exact ⟨r, by simp [List.find?, hr], by simp, hr⟩
    · rcases hex with ⟨q, hq, hcq⟩
      rcases List.mem_cons.mp hq with rfl | hq'
      · exact absurd hcq hr
      · rcases ih ⟨q, hq', hcq⟩ with ⟨p, hfind, hmem, hct⟩
        exact ⟨p, by simp [List.find?, hr, hfind], List.mem_cons_of_mem _ hmem, hct⟩

/-- C3 (amended): for EmailDataset._get_body, whenever a multipart
message has any text/plain part (in particular when a text/plain part
and a text/html part are both present), the returned body is the decoded
content of a text/plain part of the message, so the HTML branch is never
reached; extract_text_from_email does not obey this universally (see its
counterexample), only when some non-attachment text/plain part yields
non-empty trimmed content. -/
theorem c3_get_body_selects_plain_over_html (html2txt : Str → Str)
    (parts : List MimePart) (hex : ∃ q ∈ parts, q.ctype = plainCT) :
    ∃ p ∈ parts, p.ctype = plainCT ∧
      getBody html2txt (PyMessage.multipart parts) = p.text := by
  rcases find?_plain_of_exists hex with ⟨p, hfind, hmem, hct⟩
  refine ⟨p, hmem, hct, ?_⟩
  simp [getBody, hfind]

/-- Witness for C3 at a concrete multipart message carrying both a
text/html and a text/plain part. -/
theorem c3_get_body_selects_plain_over_html_witness :
    (∃ q ∈ [(⟨htmlCT, none, "<b>H</b>".toList⟩ : MimePart),
        ⟨plainCT, none, "P".toList⟩], q.ctype = plainCT) ∧
      ∃ p ∈ [(⟨htmlCT, none, "<b>H</b>".toList⟩ : MimePart),
          ⟨plainCT, none, "P".toList⟩], p.ctype = plainCT ∧
        getBody id (PyMessage.multipart
          [⟨htmlCT, none, "<b>H</b>".toList⟩, ⟨plainCT, none, "P".toList⟩]) = p.text :=
  ⟨by decide, c3_get_body_selects_plain_over_html id _ (by decide)⟩

/-- Counterexample to C3 as stated: a multipart message with both a
text/html part and a text/plain part, where the only text/plain part is
an attachment; extract_text_from_email falls back to the text/html
content, so the parser does return HTML while a text/plain part exists. -/
theorem c3_counterexample_extract_text_returns_html :
    extractBody (PyMessage.multipart
      [⟨htmlCT, none, "<b>H</b>".toList⟩,
       ⟨plainCT, some attachmentDisp, "P".toList⟩]) = "<b>H</b>".toList ∧
    ([⟨htmlCT, none, "<b>H</b>".toList⟩,
      ⟨plainCT, some attachmentDisp, "P".toList⟩] : List MimePart).any
        (fun q => decide (q.ctype = plainCT)) = true ∧
    ([⟨htmlCT, none, "<b>H</b>".toList⟩,
      ⟨plainCT, some attachmentDisp, "P".toList⟩] : List MimePart).any
        (fun q => decide (q.ctype = htmlCT)) = true ∧
    ("<b>H</b>".toList : Str) ≠ "P".toList := by decide

/-- C2: for every scandir entry list, the number of rows EmailDataset.load
returns plus its skip count equals the number of regular files scanned:
each regular file yields exactly one row or exactly one skip, whether it
fails to parse or produces an all-empty record. -/
theorem c2_loader_rows_plus_skips_eq_files (html2txt : Str → Str)
    (label : Option Str) (es : List FsNode) :
    (loadDir html2txt label es).1.length + (loadDir html2txt label es).2 =
      countTopFiles es := by
  induction es with
  | nil => rfl
  | cons e rest ih =>
    cases e with
    | dirEnt n ch =>
      simpa [loadDir, countTopFiles, List.filter, isFileEnt] using ih
    | fileEnt n res =>
      rcases hld : loadDir html2txt label rest with ⟨rows, sk⟩
      rw [hld] at ih
      rcases hpf : processFile html2txt label n res with _ | r <;>
        simp [loadDir, hpf, hld, countTopFiles, List.filter, isFileEnt] at * <;>
        omega

theorem rglobFiles_length (es : List FsNode) :
    (rglobFiles es).length = specCountList es := by
  induction es using rglobFiles.induct with
  | case1 => simp [rglobFiles, specCountList]
  | case2 n res rest ih => simp [rglobFiles, specCountList, ih, Nat.add_comm]
  | case3 n ch rest ih1 ih2 => simp [rglobFiles, specCountList, ih1, ih2]

/-- C4 (amended): recursive enumeration holds only for iter_email_files
(build_spamassassin_dataset.py), which yields every regular file at any
depth of the tree; EmailDataset.load enumerates only the direct children
of the directory, passing over subdirectory entries entirely, so a file
nested in a subdirectory contributes neither a record nor a skip. -/
theorem c4_load_nonrecursive_iter_email_files_recursive :
    (∀ (html2txt : Str → Str) (label : Option Str) (name : Str)
        (ch rest : List FsNode),
        loadDir html2txt label (FsNode.dirEnt name ch :: rest) =
          loadDir html2txt label rest) ∧
      ∀ es : List FsNode, (rglobFiles es).length = specCountList es :=
  ⟨fun _ _ _ _ _ => rfl, rglobFiles_length⟩

/-- Counterexample to C4 as stated: a regular file holding a parseable
message nested in a subdirectory yields neither a record nor a skip in
EmailDataset.load, while the same file as a direct child yields a record,
and iter_email_files does enumerate it. -/
theorem c4_counterexample_nested_file_not_scanned :
    loadDir id (some "spam".toList)
      [FsNode.dirEnt "d".toList [FsNode.fileEnt "f".toList (ReadResult.parsed
        ⟨"Hi".toList, [], [], 0, [],
          PyMessage.single ⟨plainCT, none, "Ok".toList⟩⟩)]] = ([], 0) ∧
    (rglobFiles
      [FsNode.dirEnt "d".toList [FsNode.fileEnt "f".toList (ReadResult.parsed
        ⟨"Hi".toList, [], [], 0, [],
          PyMessage.single ⟨plainCT, none, "Ok".toList⟩⟩)]]).length = 1 ∧
    loadDir id (some "spam".toList)
      [FsNode.fileEnt "f".toList (ReadResult.parsed
        ⟨"Hi".toList, [], [], 0, [],
          PyMessage.single ⟨plainCT, none, "Ok".toList⟩⟩)] =
      ([⟨"f".toList, [], [], [], 0, "Hi".toList, "Ok".toList, 0,
        some "spam".toList⟩], 0) := by
  refine ⟨by decide, ?_, by decide⟩
  simp [rglobFiles]

theorem splitCcGo_no_sep : ∀ (p cur : Str), containsCc p = false →
    splitCcGo cur p = [cur.reverse ++ p] := by
  intro p
  induction p with
  | nil => intro cur _; simp [splitCcGo]
  | cons c p' ih =>
    intro cur h
    cases p' with
    | nil => simp [splitCcGo]
    | cons c2 p'' =>
      have hnc : ¬ (c = ',' ∧ c2 = ' ') := by
        rintro ⟨h1, h2⟩
        simp [containsCc, h1, h2] at h
      have ht : containsCc (c2 :: p'') = false := by
        have := h
        simp only [containsCc, Bool.or_eq_false_iff] at this
        exact this.2
      rw [splitCcGo, if_neg hnc, ih (c :: cur) ht]
      simp

theorem splitCcGo_boundary : ∀ (p t cur : Str), containsCc p = false →
    splitCcGo cur (p ++ ',' :: ' ' :: t) = (cur.reverse ++ p) :: splitCcGo [] t := by
  intro p
  induction p with
  | nil =>
    intro t cur _
    simp [splitCcGo]
  | cons c p' ih =>
    intro t cur h
    cases p' with
    | nil =>
      have hnc : ¬ (c = ',' ∧ (',' : Char) = ' ') := by
        rintro ⟨_, h2⟩
        exact absurd h2 (by decide)
      simp only [List.cons_append, List.nil_append]
      rw [splitCcGo, if_neg hnc, splitCcGo, if_pos ⟨rfl, rfl⟩]
      simp
    | cons c2 p'' =>
      have hnc : ¬ (c = ',' ∧ c2 = ' ') := by
        rintro ⟨h1, h2⟩
        simp [containsCc, h1, h2] at h
      have ht : containsCc (c2 :: p'') = false := by
        have := h
        simp only [containsCc, Bool.or_eq_false_iff] at this
        exact this.2
      simp only [List.cons_append]
      rw [splitCcGo, if_neg hnc]
      have hrec := ih t (c :: cur) ht
      simp only [List.cons_append] at hrec
      rw [hrec]
      simp

theorem splitCc_joinWith : ∀ parts : List Str,
    (∀ p ∈ parts, containsCc p = false) → parts ≠ [] →
    splitCc (joinWith ccSep parts) = parts := by
  intro parts
  induction parts with
  | nil => intro _ h; cases h rfl
  | cons p rest ih =>
    intro hall _
    cases rest with
    | nil =>
      show splitCcGo [] (joinWith ccSep [p]) = [p]
      have : joinWith ccSep [p] = p := rfl
      rw [this]
      simpa using splitCcGo_no_sep p [] (hall p (by simp))
    | cons q rest' =>
      show splitCcGo [] (p ++ ccSep ++ joinWith ccSep (q :: rest')) = p :: q :: rest'
      rw [List.append_assoc]
      have hsep : (ccSep ++ joinWith ccSep (q :: rest') : Str) =
          ',' :: ' ' :: joinWith ccSep (q :: rest') := rfl
      rw [hsep, splitCcGo_boundary _ _ _ (hall p (by simp))]
      simp only [List.reverse_nil, List.nil_append]
      congr 1
      exact ih (fun r hr => hall r (List.mem_cons_of_mem _ hr)) (by simp)

/-- C5 (amended): the num_cc round trip between extraction and the
Feature Engine's re-derivation holds for every address list in which no
kept address contains the comma-space separator as a segment and every
kept address has some non-whitespace content; without those side
conditions the round trip fails (see the counterexample), because
getaddresses can return address strings containing a comma and a space,
for instance from an RFC 5322 quoted local part. -/
theorem c5_num_cc_roundtrip (addrs : List Str)
    (h : ∀ a ∈ addrs, a ≠ [] → containsCc a = false ∧ pyStrip a ≠ []) :
    rederiveNumCc (ccTxtOf addrs) = numCcOf addrs := by
  unfold rederiveNumCc ccTxtOf numCcOf
  rcases hne : addrs.filter (fun a => decide (a ≠ [])) with _ | ⟨p, rest⟩
  · decide
  · have hprops : ∀ a ∈ p :: rest, containsCc a = false ∧ pyStrip a ≠ [] := by
      intro a ha
      have haf : a ∈ addrs.filter (fun a => decide (a ≠ [])) := hne ▸ ha
      exact h a (List.mem_filter.mp haf).1 (by simpa using (List.mem_filter.mp haf).2)
    rw [splitCc_joinWith _ (fun a ha => (hprops a ha).1) (by simp)]
    rw [List.filter_eq_self.mpr (fun a ha => by simpa using (hprops a ha).2)]

/-- Witness for C5 at a concrete address list. -/
theorem c5_num_cc_roundtrip_witness :
    (∀ a ∈ (["ab@x".toList, "cd@y".toList] : List Str), a ≠ [] →
        containsCc a = false ∧ pyStrip a ≠ []) ∧
      rederiveNumCc (ccTxtOf ["ab@x".toList, "cd@y".toList]) =
        numCcOf ["ab@x".toList, "cd@y".toList] :=
  ⟨by decide, c5_num_cc_roundtrip _ (by decide)⟩

/-- Counterexample to C5 as stated: a single address containing a comma
and a space (as a quoted local part can) gives num_cc of one but a
re-derived count of two. -/
theorem c5_counterexample_address_containing_separator :
    numCcOf [['a', ',', ' ', 'b']] = 1 ∧
      rederiveNumCc (ccTxtOf [['a', ',', ' ', 'b']]) = 2 := by decide

/-- Witness for C8 at a concrete configuration and input. -/
theorem c8_disabled_normalizer_is_identity_witness :
    ({ enable := false } : PreprocessingCfg).enable = false ∧
      textPreprocessorCall idPrims { enable := false } ("Hi  <b>x</b> ".toList)
        = "Hi  <b>x</b> ".toList :=
  ⟨rfl, c8_disabled_normalizer_is_identity idPrims { enable := false } _ rfl⟩

theorem getCol_setCol_ne (t : Table) {n m : String} (c : Col) (h : m ≠ n) :
    getCol (setCol t n c) m = getCol t m := by
  induction t with
  | nil => simp [setCol, getCol, Ne.symm h]
  | cons p rest ih =>
    rcases p with ⟨k, v⟩
    by_cases hk : k = n
    · subst hk
      simp [setCol, getCol, Ne.symm h]
    · simp [setCol, getCol, hk, ih]

theorem getCol_eq_none_of_not_hasCol {t : Table} {n : String}
    (h : hasCol t n = false) : getCol t n = none := by
  unfold hasCol at h
  cases hg : getCol t n
  · rfl
  · rw [hg] at h; cases h

theorem getCol_eq_some_of_hasCol {t : Table} {n : String}
    (h : hasCol t n = true) : ∃ v, getCol t n = some v := by
  unfold hasCol at h
  cases hg : getCol t n
  · rw [hg] at h; cases h
  · exact ⟨_, rfl⟩

theorem getCol_featStep1 (cls : EmailFeatureClass) (df : Table) {m : String}
    (h : m ≠ "subject_len") : getCol (featStep1 cls df) m = getCol df m := by
  unfold featStep1
  split
  · exact getCol_setCol_ne df _ h
  · rfl

theorem getCol_featStep2 (cls : EmailFeatureClass) (df : Table) {m : String}
    (h : m ≠ "content_len") : getCol (featStep2 cls df) m = getCol df m := by
  unfold featStep2
  split
  · exact getCol_setCol_ne df _ h
  · rfl

/-- C6 (amended): on a table that lacks a subject or a content column and
has no has_link column, the Feature Engine does fail, but with the
column-lookup KeyError of the has_link derivation, naming the subject
column when it is absent and otherwise the content column; it never
reaches the SchemaError that enumerates the missing names from the
required column set. -/
theorem c6_feature_engine_fails_with_key_error (df : Table)
    (hl : hasCol df "has_link" = false)
    (hmiss : hasCol df "subject" = false ∨ hasCol df "content" = false) :
    ∃ c, defaultFeatureCls.callTable df = Except.error (FErr.keyErr c) ∧
      ((c = "subject" ∧ hasCol df "subject" = false) ∨
        (c = "content" ∧ hasCol df "subject" = true ∧
          hasCol df "content" = false)) := by
  have hsub : ∀ m : String, m ≠ "subject_len" → m ≠ "content_len" →
      getCol (featStep2 defaultFeatureCls (featStep1 defaultFeatureCls df)) m =
        getCol df m := by
    intro m h1 h2
    rw [getCol_featStep2 _ _ h2, getCol_featStep1 _ _ h1]
  have hL : hasCol (featStep2 defaultFeatureCls (featStep1 defaultFeatureCls df))
      "has_link" = false := by
    unfold hasCol
    rw [hsub _ (by decide) (by decide)]
    exact hl
  by_cases hs : hasCol df "subject" = true
  · have hc : hasCol df "content" = false := by
      rcases hmiss with hmm | hmm
      · rw [hs] at hmm; cases hmm
      · exact hmm
    refine ⟨"content", ?_, Or.inr ⟨rfl, hs, hc⟩⟩
    rcases getCol_eq_some_of_hasCol hs with ⟨sv, hsv⟩
    have h1 : getCol (featStep2 defaultFeatureCls (featStep1 defaultFeatureCls df))
        "subject" = some sv := by
      rw [hsub _ (by decide) (by decide)]; exact hsv
    have h2 : getCol (featStep2 defaultFeatureCls (featStep1 defaultFeatureCls df))
        "content" = none := by
      rw [hsub _ (by decide) (by decide)]
      exact getCol_eq_none_of_not_hasCol hc
    unfold EmailFeatureClass.callTable
    have hstep : featHasLink defaultFeatureCls
        (featStep2 defaultFeatureCls (featStep1 defaultFeatureCls df)) =
        Except.error (FErr.keyErr "content") := by
      unfold featHasLink
      rw [if_neg (by rw [hL]; exact Bool.false_ne_true)]
      have hsc : defaultFeatureCls.subject_col = "subject" := rfl
      have hcc : defaultFeatureCls.content_col = "content" := rfl
      rw [hsc, hcc, h1, h2]
    rw [hstep]
  · rw [Bool.not_eq_true] at hs
    refine ⟨"subject", ?_, Or.inl ⟨rfl, hs⟩⟩
    have h1 : getCol (featStep2 defaultFeatureCls (featStep1 defaultFeatureCls df))
        "subject" = none := by
      rw [hsub _ (by decide) (by decide)]
      exact getCol_eq_none_of_not_hasCol hs
    unfold EmailFeatureClass.callTable
    have hstep : featHasLink defaultFeatureCls
        (featStep2 defaultFeatureCls (featStep1 defaultFeatureCls df)) =
        Except.error (FErr.keyErr "subject") := by
      unfold featHasLink
      rw [if_neg (by rw [hL]; exact Bool.false_ne_true)]
      have hsc : defaultFeatureCls.subject_col = "subject" := rfl
      rw [hsc, h1]
    rw [hstep]

/-- Witness for C6 at a concrete table lacking the subject column. -/
theorem c6_feature_engine_fails_with_key_error_witness :
    hasCol [("content", ([] : Col))] "has_link" = false ∧
      (hasCol [("content", ([] : Col))] "subject" = false ∨
        hasCol [("content", ([] : Col))] "content" = false) ∧
      ∃ c, defaultFeatureCls.callTable [("content", ([] : Col))] =
          Except.error (FErr.keyErr c) ∧
        ((c = "subject" ∧ hasCol [("content", ([] : Col))] "subject" = false) ∨
          (c = "content" ∧ hasCol [("content", ([] : Col))] "subject" = true ∧
            hasCol [("content", ([] : Col))] "content" = false)) :=
  ⟨by decide, by decide,
    c6_feature_engine_fails_with_key_error _ (by decide) (by decide)⟩

/-- Counterexample to C6 as stated: on a table with a content column but
no subject and no has_link column, the failure is the KeyError naming
subject, not the enumerating missing-columns SchemaError. -/
theorem c6_counterexample_key_error_not_schema_error :
    defaultFeatureCls.callTable [("content", ([] : Col))] =
        Except.error (FErr.keyErr "subject") ∧
      isMissingExpectedErr
        (defaultFeatureCls.callTable [("content", ([] : Col))]) = false := by
  decide

/-- C7: on a feature table that has every required column except
num_hops, the Dataset Assembler fails with the enumerating SchemaError
naming exactly num_hops, and the filesystem state is untouched: no
directory is created and no output file is written. -/
theorem c7_assembler_missing_num_hops_no_write (df : Table) (fs : FsState)
    (hp : ∀ c ∈ keepCols, c ≠ "num_hops" → hasCol df c = true)
    (hn : hasCol df "num_hops" = false) :
    mainAssemble df fs =
      (some (MainErr.featureErr (FErr.missingExpected ["num_hops"])), fs) := by
  have hsl : hasCol df "subject_len" = true := hp _ (by decide) (by decide)
  have hcl : hasCol df "content_len" = true := hp _ (by decide) (by decide)
  have hhl : hasCol df "has_link" = true := hp _ (by decide) (by decide)
  have hnc : hasCol df "num_cc" = true := hp _ (by decide) (by decide)
  have h1 : featStep1 defaultFeatureCls df = df := by
    unfold featStep1
    rw [if_neg]
    simp [hsl]
  have h2 : featStep2 defaultFeatureCls df = df := by
    unfold featStep2
    rw [if_neg]
    simp [hcl]
  have h3 : featHasLink defaultFeatureCls df = Except.ok df := by
    unfold featHasLink
    rw [if_pos hhl]
  have h4 : featStep4 defaultFeatureCls df = df := by
    unfold featStep4
    rw [if_neg]
    simp [hnc]
  have h5 : featFinish defaultFeatureCls df =
      Except.error (FErr.missingExpected ["num_hops"]) := by
    unfold featFinish
    have hfil : defaultFeatureCls.cols.filter (fun c => ¬ hasCol df c) =
        ["num_hops"] := by
      show List.filter _
        ["num_cc", "num_hops", "subject_len", "content_len", "has_link"] = _
      simp [List.filter, hnc, hn, hsl, hcl, hhl]
    simp only [hfil]
    rfl
  unfold mainAssemble EmailFeatureClass.callTable
  simp only [h1, h2, h3, h4, h5]

/-- Witness for C7 at a concrete feature table missing only num_hops. -/
theorem c7_assembler_missing_num_hops_no_write_witness :
    (∀ c ∈ keepCols, c ≠ "num_hops" →
        hasCol [("sender", ([] : Col)), ("recipient", []), ("num_cc", []),
          ("subject", []), ("content", []), ("subject_len", []),
          ("content_len", []), ("has_link", []), ("label", [])] c = true) ∧
      hasCol [("sender", ([] : Col)), ("recipient", []), ("num_cc", []),
        ("subject", []), ("content", []), ("subject_len", []),
        ("content_len", []), ("has_link", []), ("label", [])] "num_hops" = false ∧
      mainAssemble
        [("sender", ([] : Col)), ("recipient", []), ("num_cc", []),
          ("subject", []), ("content", []), ("subject_len", []),
          ("content_len", []), ("has_link", []), ("label", [])]
        ⟨0, none⟩ =
        (some (MainErr.featureErr (FErr.missingExpected ["num_hops"])),
          ⟨0, none⟩) :=
  ⟨by decide, by decide,
    c7_assembler_missing_num_hops_no_write _ _ (by decide) (by decide)⟩

theorem hSet_length (h : Heap) (w : Nat) (t : Table) :
    (hSet h w t).length = h.length := by
  simp [hSet]

theorem hGet_hSet_ne (h : Heap) (w : Nat) (t : Table) {r' : Nat} (hne : r' ≠ w) :
    hGet (hSet h w t) r' = hGet h r' := by
  induction h generalizing w r' with
  | nil => rfl
  | cons a as ih =>
    cases w with
    | zero =>
      cases r' with
      | zero => exact absurd rfl hne
      | succ r'' => simp [hGet, hSet, List.getD]
    | succ w' =>
      cases r' with
      | zero => simp [hGet, hSet, List.getD]
      | succ r'' =>
        have := @ih w' r'' (fun hh => hne (by rw [hh]))
        simpa [hGet, hSet, List.getD] using this

theorem hGet_append_lt {h : Heap} {r' : Nat} (t : Table) (hlt : r' < h.length) :
    hGet (h ++ [t]) r' = hGet h r' := by
  induction h generalizing r' with
  | nil => cases hlt
  | cons a as ih =>
    cases r' with
    | zero => rfl
    | succ r'' =>
      have := ih (Nat.lt_of_succ_lt_succ hlt)
      simpa [hGet, List.getD] using this

theorem featHeapStep1_frame (cls : EmailFeatureClass) (h1 : Heap) (w : Nat)
    {r' : Nat} (hne : r' ≠ w) :
    hGet (featHeapStep1 cls h1 w) r' = hGet h1 r' := by
  unfold featHeapStep1
  split
  · exact hGet_hSet_ne h1 w _ hne
  · rfl

theorem featHeapStep1_length (cls : EmailFeatureClass) (h1 : Heap) (w : Nat) :
    (featHeapStep1 cls h1 w).length = h1.length := by
  unfold featHeapStep1
  split
  · exact hSet_length h1 w _
  · rfl

theorem featHeapStep2_frame (cls : EmailFeatureClass) (h2 : Heap) (w : Nat)
    {r' : Nat} (hne : r' ≠ w) :
    hGet (featHeapStep2 cls h2 w) r' = hGet h2 r' := by
  unfold featHeapStep2
  split
  · exact hGet_hSet_ne h2 w _ hne
  · rfl

theorem featHeapStep2_length (cls : EmailFeatureClass) (h2 : Heap) (w : Nat) :
    (featHeapStep2 cls h2 w).length = h2.length := by
  unfold featHeapStep2
  split
  · exact hSet_length h2 w _
  · rfl

theorem featHeapFinish_frame (cls : EmailFeatureClass) {h4 : Heap} {w r' : Nat}
    (hlt : r' < h4.length) :
    hGet (featHeapFinish cls h4 w).1 r' = hGet h4 r' := by
  unfold featHeapFinish
  split
  · exact hGet_append_lt _ hlt
  · rfl

theorem featHeapFinish_res (cls : EmailFeatureClass) {h4 : Heap} {w res : Nat}
    (h : (featHeapFinish cls h4 w).2 = Except.ok res) : res = h4.length := by
  unfold featHeapFinish at h
  split at h
  · cases h
    rfl
  · cases h

theorem featHeapTail_frame (cls : EmailFeatureClass) {h : Heap} {w r' : Nat}
    (hne : r' ≠ w) (hlt : r' < h.length) :
    hGet (featHeapTail cls h w).1 r' = hGet h r' := by
  unfold featHeapTail
  split
  · rw [featHeapFinish_frame cls (by rw [hSet_length]; exact hlt),
      hGet_hSet_ne h w _ hne]
  · exact featHeapFinish_frame cls hlt

theorem featHeapTail_res (cls : EmailFeatureClass) {h : Heap} {w res : Nat}
    (hok : (featHeapTail cls h w).2 = Except.ok res) : res = h.length := by
  unfold featHeapTail at hok
  split at hok
  · rw [featHeapFinish_res cls hok, hSet_length]
  · exact featHeapFinish_res cls hok

theorem featHeapLink_frame (cls : EmailFeatureClass) {h3 : Heap} {w r' : Nat}
    (hne : r' ≠ w) (hlt : r' < h3.length) :
    hGet (featHeapLink cls h3 w).1 r' = hGet h3 r' := by
  unfold featHeapLink
  split
  · exact featHeapTail_frame cls hne hlt
  · split
    · rfl
    · split
      · rfl
      · rw [featHeapTail_frame cls hne (by rw [hSet_length]; exact hlt),
          hGet_hSet_ne h3 w _ hne]

theorem featHeapLink_res (cls : EmailFeatureClass) {h3 : Heap} {w res : Nat}
    (hok : (featHeapLink cls h3 w).2 = Except.ok res) : res = h3.length := by
  unfold featHeapLink at hok
  split at hok
  · exact featHeapTail_res cls hok
  · split at hok
    · cases hok
    · split at hok
      · cases hok
      · rw [featHeapTail_res cls hok, hSet_length]

/-- C10: the Feature Engine never mutates the caller's table: in the heap
model of __call__, every table that existed before the call, the caller's
argument included, is unchanged afterwards, and a successful call returns
a reference to a fresh table (the index just past the original heap),
never an alias of the input. -/
theorem c10_feature_engine_never_mutates_caller (cls : EmailFeatureClass)
    (h : Heap) (r r' : Nat) (hlt : r' < h.length) :
    hGet ((cls.callHeap h r).1) r' = hGet h r' ∧
      ∀ res, (cls.callHeap h r).2 = Except.ok res → res = h.length + 1 := by
  have hne : r' ≠ h.length := Nat.ne_of_lt hlt
  have hlen1 : (h ++ [hGet h r]).length = h.length + 1 := by simp
  have hlen2 : (featHeapStep1 cls (h ++ [hGet h r]) h.length).length =
      h.length + 1 := by rw [featHeapStep1_length, hlen1]
  have hlen3 : (featHeapStep2 cls
      (featHeapStep1 cls (h ++ [hGet h r]) h.length) h.length).length =
      h.length + 1 := by rw [featHeapStep2_length, hlen2]
  constructor
  · show hGet (featHeapLink cls _ h.length).1 r' = hGet h r'
    rw [featHeapLink_frame cls hne (by rw [hlen3]; omega),
      featHeapStep2_frame cls _ _ hne, featHeapStep1_frame cls _ _ hne,
      hGet_append_lt _ hlt]
  · intro res hres
    have := featHeapLink_res cls hres
    rw [this, hlen3]

/-- Witness for C10 at a concrete heap holding one one-column table. -/
theorem c10_feature_engine_never_mutates_caller_witness :
    (0 < ([[("subject", ([] : Col)), ("content", []), ("cc", []),
        ("num_hops", [])]] : Heap).length) ∧
      hGet ((defaultFeatureCls.callHeap
          [[("subject", ([] : Col)), ("content", []), ("cc", []),
            ("num_hops", [])]] 0).1) 0 =
        hGet [[("subject", ([] : Col)), ("content", []), ("cc", []),
          ("num_hops", [])]] 0 :=
  ⟨by decide,
    (c10_feature_engine_never_mutates_caller defaultFeatureCls
      [[("subject", ([] : Col)), ("content", []), ("cc", []),
        ("num_hops", [])]] 0 0 (by decide)).1⟩

end ESC


